import Mathlib

/-!
Verification development for the jukugo-kasane repository (a LINE chat bot
compositing rendered character glyphs into intersection/union/step-reveal
puzzle images).  The definitions below are a shallow embedding of the Python
source: `src/image_generator/__init__.py` (compositing engine and font
registry), `src/line/parser.py` (command parser) and `src/line/handler.py`
(conversation state machine slices).  Python strings are modelled as
`List Char` (Lean `Char` is a Unicode code point, matching Python), images
as functions from pixel coordinates to color tuples, and fallible code as
`Except` / `Option` values.
-/

/-- Python strings are modelled as lists of Unicode characters. -/
abbrev Str := List Char

/-- Coercion from Lean string literals to the `Str` model. -/
def ofStr (s : String) : Str := s.data

/-- Whitespace characters stripped by Python `str.strip()` (the Unicode
whitespace set used by `str.split` / `str.strip`). -/
def pyIsSpace (c : Char) : Bool :=
  let n := c.toNat
  decide (9 ≤ n ∧ n ≤ 13) || decide (28 ≤ n ∧ n ≤ 31) || (n == 32) || (n == 0x85) ||
    (n == 0xa0) || (n == 0x1680) || decide (0x2000 ≤ n ∧ n ≤ 0x200a) ||
    (n == 0x2028) || (n == 0x2029) || (n == 0x202f) || (n == 0x205f) || (n == 0x3000)

/-- Model of Python `str.lstrip()`. -/
def pyLstrip (s : Str) : Str := s.dropWhile pyIsSpace

/-- Model of Python `str.rstrip()`. -/
def pyRstrip (s : Str) : Str := (s.reverse.dropWhile pyIsSpace).reverse

/-- Model of Python `str.strip()`. -/
def pyStrip (s : Str) : Str := pyLstrip (pyRstrip s)

/-- Split a string at the first occurrence of the separator character,
returning the parts before and after it; `none` when the separator is
absent.  Models Python `s.split(sep, 1)` / `s.partition(sep)`. -/
def splitAtFirst (c : Char) : Str → Option (Str × Str)
  | [] => none
  | h :: t =>
    if h = c then some ([], t)
    else
      match splitAtFirst c t with
      | none => none
      | some (a, b) => some (h :: a, b)

/-- Model of Python `s.startswith(p)`. -/
def pyStarts : Str → Str → Bool
  | [], _ => true
  | _ :: _, [] => false
  | p :: ps, s :: ss => (p == s) && pyStarts ps ss

/-- The tail component of Python `s.partition(" ")`: everything after the
first space, or the empty string when there is no space. -/
def partSpaceTail (s : Str) : Str :=
  match splitAtFirst ' ' s with
  | none => []
  | some (_, t) => t

/-- Model of Python `str.lower()` (ASCII case mapping, which covers every
identifier handled by the bot). -/
def pyLower (s : Str) : Str := s.map Char.toLower

/-- ASCII decimal digit test. -/
def isAsciiDigit (c : Char) : Bool :=
  decide (48 ≤ c.toNat) && decide (c.toNat ≤ 57)

/-- Model of Python `str.isdigit()` restricted to ASCII digits (the only
digits produced by the bot's numeric slot syntax). -/
def pyIsdigit (s : Str) : Bool := !s.isEmpty && s.all isAsciiDigit

/-- Numeric value of an ASCII digit string, as computed by Python `int()`. -/
def natOfDigits (s : Str) : Nat := s.foldl (fun n c => 10 * n + (c.toNat - 48)) 0

/-- Character allow-list from `LineCommandParser._is_allowed_char`:
Hiragana, Katakana, CJK Unified Ideographs, ASCII digits and letters. -/
def is_allowed_char (c : Char) : Bool :=
  let code := c.toNat
  if 0x3041 ≤ code ∧ code ≤ 0x309F then true
  else if 0x30A0 ≤ code ∧ code ≤ 0x30FF then true
  else if 0x4E00 ≤ code ∧ code ≤ 0x9FFF then true
  else if 0x30 ≤ code ∧ code ≤ 0x39 then true
  else if 0x41 ≤ code ∧ code ≤ 0x5A then true
  else if 0x61 ≤ code ∧ code ≤ 0x7A then true
  else false

/-- Word allow-list check from `LineCommandParser._is_allowed_word`. -/
def is_allowed_word (s : Str) : Bool := s.all is_allowed_char

/-! ## Compositing engine (`src/image_generator/__init__.py`) -/

/-- RGBA color tuple, as used by the rendered glyph bitmaps. -/
structure RGBA where
  r : Nat
  g : Nat
  b : Nat
  a : Nat
deriving DecidableEq

/-- RGB color triple, as stored in the generated output images. -/
structure RGB where
  r : Nat
  g : Nat
  b : Nat
deriving DecidableEq

/-- Color constant `BLACK` from the source. -/
def BLACK : RGBA := ⟨0, 0, 0, 255⟩

/-- Color constant `WHITE` from the source. -/
def WHITE : RGBA := ⟨255, 255, 255, 255⟩

/-- Color constant `PURPLE` from the source. -/
def PURPLE : RGBA := ⟨70, 20, 190, 255⟩

/-- Color constant `BLUE` from the source. -/
def BLUE : RGBA := ⟨70, 65, 225, 255⟩

/-- Color constant `RED` from the source. -/
def RED : RGBA := ⟨230, 70, 70, 255⟩

/-- Color constant `RED_SOFT` from the source (already a 3-tuple there). -/
def RED_SOFT : RGB := ⟨255, 170, 170⟩

/-- Storing an RGBA constant into an RGB output image drops the alpha
channel (PIL behaviour for `putpixel` on an RGB image). -/
def rgbOf (c : RGBA) : RGB := ⟨c.r, c.g, c.b⟩

/-- A rendered glyph bitmap: RGBA value at each pixel coordinate of the
1024 x 1024 canvas. -/
def Glyph := Nat → Nat → RGBA

/-- A generated output image: RGB value at each pixel coordinate. -/
def Img := Nat → Nat → RGB

/-- Default glyph used only to totalize list indexing; every theorem below
constrains indices to be in range, where this default is never consulted. -/
def blankGlyph : Glyph := fun _ _ => WHITE

/-- Per-pixel body of `ImageGenerator._process_pixels`: the (question,
answer) pixel pair for two glyphs. -/
def process_pixels (p1 p2 : Glyph) (x y : Nat) : RGB × RGB :=
  if p1 x y = BLACK then
    if p2 x y = BLACK then (rgbOf BLACK, rgbOf PURPLE)
    else (rgbOf WHITE, rgbOf BLUE)
  else
    if p2 x y = BLACK then (rgbOf WHITE, rgbOf RED)
    else (rgbOf WHITE, rgbOf WHITE)

/-- Per-pixel body of `ImageGenerator._process_union_pixels` (two glyphs). -/
def process_union_pixels (p1 p2 : Glyph) (x y : Nat) : RGB :=
  if p1 x y = BLACK ∨ p2 x y = BLACK then rgbOf BLACK else rgbOf WHITE

/-- Per-pixel body of `ImageGenerator._process_intersection_pixels`:
ink iff every glyph is ink at the coordinate. -/
def process_intersection_pixels (ps : List Glyph) (x y : Nat) : RGB :=
  if ps.all (fun p => decide (p x y = BLACK)) then rgbOf BLACK else rgbOf WHITE

/-- Per-pixel body of `ImageGenerator._process_union_pixels_multi`:
ink iff any glyph is ink at the coordinate. -/
def process_union_pixels_multi (ps : List Glyph) (x y : Nat) : RGB :=
  if ps.any (fun p => decide (p x y = BLACK)) then rgbOf BLACK else rgbOf WHITE

/-- Per-pixel body of `ImageGenerator._process_step_pixels`: the step-frame
color for step `stepIndex` over the glyph list. -/
def process_step_pixels (ps : List Glyph) (stepIndex x y : Nat) : RGB :=
  if stepIndex = 1 then
    let p1 := ps.getD 0 blankGlyph
    let p2 := ps.getD 1 blankGlyph
    if p1 x y = BLACK ∧ p2 x y = BLACK then rgbOf PURPLE
    else if p1 x y = BLACK ∧ ¬p2 x y = BLACK then rgbOf RED
    else if ¬p1 x y = BLACK ∧ p2 x y = BLACK then rgbOf BLUE
    else rgbOf WHITE
  else
    let preAll := (ps.take stepIndex).all (fun p => decide (p x y = BLACK))
    let preAny := (ps.take stepIndex).any (fun p => decide (p x y = BLACK))
    let nextBlack := decide ((ps.getD stepIndex blankGlyph) x y = BLACK)
    if preAll && !nextBlack then rgbOf RED
    else if preAll && nextBlack then rgbOf PURPLE
    else if preAny && !nextBlack then RED_SOFT
    else if nextBlack then rgbOf BLUE
    else rgbOf WHITE

/-! ## Font registry (`ImageGenerator` font handling) -/

/-- The fixed `font_key_map` registry of named font paths. -/
def fontKeyMap : List (Str × Str) :=
  [(ofStr "mincho", ofStr "/app/.fonts/Honoka_Shin_Mincho_L.otf"),
   (ofStr "monogothic", ofStr "/app/.fonts/GenEiMonoGothic-Regular.ttf"),
   (ofStr "hiragino", ofStr "/System/Library/Fonts/Hiragino Sans GB.ttc"),
   (ofStr "dejavu", ofStr "/usr/share/fonts/truetype/dejavu/DejaVuSans.ttf")]

/-- Dictionary lookup over an association list (`dict.get`). -/
def lookupStr (m : List (Str × Str)) (k : Str) : Option Str :=
  (m.find? (fun kv => kv.1 == k)).map (·.2)

/-- ASCII alphanumeric character class `[A-Za-z0-9]`. -/
def isAlnumAscii (c : Char) : Bool :=
  isAsciiDigit c || decide (65 ≤ c.toNat ∧ c.toNat ≤ 90) ||
    decide (97 ≤ c.toNat ∧ c.toNat ≤ 122)

/-- Model of `re.match` against the anchored pattern of 2 to 10 ASCII
alphanumerics (`font_key_pattern`).  Python's dollar anchor also matches
immediately before a single trailing newline, which this model reproduces. -/
def fontPatternPy (s : Str) : Bool :=
  let core := if s.getLast? = some '\n' then s.dropLast else s
  decide (2 ≤ core.length) && decide (core.length ≤ 10) && core.all isAlnumAscii

/-- Spec-side reading of the same pattern: a full match of
`[A-Za-z0-9]` repeated 2 to 10 times, with no newline tolerance. -/
def fontPatternSpec (s : Str) : Bool :=
  decide (2 ≤ s.length) && decide (s.length ≤ 10) && s.all isAlnumAscii

/-- Error taxonomy of the generator's `ValueError` raise sites. -/
inductive GenErr where
  /-- raised by `generate_images_with_union` / `generate_union_video` for a
  word length outside the accepted range -/
  | invalidWordLength
  /-- raised by `generate_images` for a word length other than 2 -/
  | invalidTwoCharOnly
  /-- raised by `normalize_font_key` when the identifier fails the pattern -/
  | invalidFontKeyPattern
  /-- raised by `normalize_font_key` when the identifier is not registered -/
  | fontNotRegistered
  /-- raised by `_get_font_for_key` when the registered path is unusable -/
  | fontNotUsable
deriving DecidableEq

/-- Model of `ImageGenerator.normalize_font_key`.  The argument is an
optional string so that both Python `None` and the empty string take the
falsy branch.  No filesystem state is consulted: the result is a pure
function of the identifier and the static registry. -/
def normalize_font_key (fontKey : Option Str) : Except GenErr Str :=
  match fontKey with
  | none => Except.ok (ofStr "default")
  | some s =>
    if s = [] then Except.ok (ofStr "default")
    else if ¬fontPatternPy s then Except.error GenErr.invalidFontKeyPattern
    else if s ≠ ofStr "default" ∧ lookupStr fontKeyMap s = none then
      Except.error GenErr.fontNotRegistered
    else Except.ok s

/-- Token standing for the generator's probed default font handle
(`self.font`). -/
def defaultFontToken : Str := ofStr "<default-font>"

/-- Model of `ImageGenerator._get_font_for_key`.  The parameter `usable`
abstracts `os.path.exists` plus loadability of the font file. -/
def get_font_for_key (usable : Str → Bool) (key : Str) : Except GenErr Str :=
  if key = ofStr "default" then Except.ok defaultFontToken
  else
    match lookupStr fontKeyMap key with
    | none => Except.error GenErr.fontNotUsable
    | some path => if usable path then Except.ok path else Except.error GenErr.fontNotUsable

/-- Outputs of `generate_images_with_union`: question image, optional
answer image (2-character case only) and union image. -/
structure GenOut where
  q : Img
  a : Option Img
  u : Img

/-- Model of `ImageGenerator.generate_images_with_union` up to file saving:
length validation, font normalization and resolution, glyph rendering
(abstracted by `render`), and pixel processing. -/
def generate_images_with_union (usable : Str → Bool) (render : Str → Char → Glyph)
    (word : Str) (fontKey : Str) : Except GenErr GenOut :=
  if word.length < 2 ∨ 8 < word.length then Except.error GenErr.invalidWordLength
  else
    match normalize_font_key (some fontKey) with
    | Except.error e => Except.error e
    | Except.ok nk =>
      match get_font_for_key usable nk with
      | Except.error e => Except.error e
      | Except.ok fpath =>
        let glyphs := word.map (render fpath)
        if word.length = 2 then
          Except.ok
            { q := fun x y =>
                (process_pixels (glyphs.getD 0 blankGlyph) (glyphs.getD 1 blankGlyph) x y).1
              a := some fun x y =>
                (process_pixels (glyphs.getD 0 blankGlyph) (glyphs.getD 1 blankGlyph) x y).2
              u := process_union_pixels (glyphs.getD 0 blankGlyph) (glyphs.getD 1 blankGlyph) }
        else
          Except.ok
            { q := process_intersection_pixels glyphs
              a := none
              u := process_union_pixels_multi glyphs }

/-- Model of `ImageGenerator.generate_images` (the two-character-only
operation used by the intersection-mode group quiz dispatch). -/
def generate_images (usable : Str → Bool) (render : Str → Char → Glyph)
    (word : Str) (fontKey : Str) : Except GenErr (Img × Img) :=
  if word.length ≠ 2 then Except.error GenErr.invalidTwoCharOnly
  else
    match normalize_font_key (some fontKey) with
    | Except.error e => Except.error e
    | Except.ok nk =>
      match get_font_for_key usable nk with
      | Except.error e => Except.error e
      | Except.ok fpath =>
        let glyphs := word.map (render fpath)
        Except.ok
          (fun x y =>
            (process_pixels (glyphs.getD 0 blankGlyph) (glyphs.getD 1 blankGlyph) x y).1,
           fun x y =>
            (process_pixels (glyphs.getD 0 blankGlyph) (glyphs.getD 1 blankGlyph) x y).2)

/-! ## Command parser (`src/line/parser.py`) -/

/-- Keyword configuration table handed to `LineCommandParser`.  The `list`
keyword is configured as a single string in this repository (`main.py` and
the test suite); the parser's list/tuple tolerance therefore reduces to the
one-element candidate list modelled here. -/
structure Keywords where
  help : List Str
  setting : Str
  listKw : Str
  menuGenerate : Str
  menuRegister : Str
  menuList : Str
  menuSettings : Str
  menuUsage : Str
  menuMode : Str
  menuFont : Str
  promptKw : Str
  modeCommon : Str
  modeUnion : Str
  font : Str
  fontPfx : Str

/-- Structured command returned by `LineCommandParser.parse` (the `type`
tag of the returned dictionary, with its payload). -/
inductive Command where
  | help
  | setting (key value : Str)
  | listCmd
  | menuGenerate
  | menuRegister
  | menuList
  | menuSettings
  | menuUsage
  | menuMode
  | menuFont
  | menuPrompt
  | quizPrompt (value : Str)
  | modeCommon
  | modeUnion
  | font (value : Str)
  | invalidWord
  | both (word : Str)
  | unknown
deriving DecidableEq

/-- Model of `LineCommandParser._parse_setting`: a `key=value` payload after
the setting keyword, or nothing when malformed. -/
def parse_setting (kw : Keywords) (text : Str) : Option (Str × Str) :=
  if ¬pyStarts kw.setting text then none
  else
    let rest := partSpaceTail text
    match splitAtFirst '=' rest with
    | none => none
    | some (k0, v0) =>
      let k := pyLower (pyStrip k0)
      let v := pyStrip v0
      if k = [] ∨ v = [] then none else some (k, v)

/-- Leading `/` or `#` command marker handling at the top of `parse`:
returns the remaining stripped text and whether a marker was present. -/
def stripMarker (s : Str) : Str × Bool :=
  match s with
  | [] => ([], false)
  | c :: rest => if c = '/' ∨ c = '#' then (pyStrip rest, true) else (s, false)

/-- Tail of `parse` after every keyword branch has fallen through: the
quiz-syntax deferral on `.` and the 2-8 character compose-word check
(steps 6-8 of the documented parse order). -/
def parseTail (stripped : Str) : Command :=
  if stripped.contains '.' then Command.unknown
  else if 2 ≤ stripped.length ∧ stripped.length ≤ 8 then
    if is_allowed_word stripped then Command.both stripped else Command.invalidWord
  else Command.unknown

/-- Body of `LineCommandParser.parse` over the already stripped text and
marker flag, mirroring the source's first-match-wins branch chain. -/
def parseStripped (kw : Keywords) (stripped : Str) (hasMarker : Bool) : Command :=
  if hasMarker ∧ stripped ∈ kw.help then Command.help
  else
    match (if hasMarker then parse_setting kw stripped else none) with
    | some (k, v) => Command.setting k v
    | none =>
      if hasMarker ∧ kw.listKw ≠ [] ∧ stripped = kw.listKw then Command.listCmd
      else if hasMarker ∧ kw.menuGenerate ≠ [] ∧ stripped = kw.menuGenerate then
        Command.menuGenerate
      else if hasMarker ∧ kw.menuRegister ≠ [] ∧ stripped = kw.menuRegister then
        Command.menuRegister
      else if hasMarker ∧ kw.menuList ≠ [] ∧ stripped = kw.menuList then Command.menuList
      else if hasMarker ∧ kw.menuSettings ≠ [] ∧ stripped = kw.menuSettings then
        Command.menuSettings
      else if hasMarker ∧ kw.menuUsage ≠ [] ∧ stripped = kw.menuUsage then Command.menuUsage
      else if hasMarker ∧ kw.menuMode ≠ [] ∧ stripped = kw.menuMode then Command.menuMode
      else if hasMarker ∧ kw.menuFont ≠ [] ∧ stripped = kw.menuFont then Command.menuFont
      else if hasMarker ∧ kw.promptKw ≠ [] ∧ pyStarts kw.promptKw stripped then
        let v := pyStrip (partSpaceTail stripped)
        if v = [] then Command.menuPrompt else Command.quizPrompt v
      else if hasMarker ∧ kw.modeCommon ≠ [] ∧ stripped = kw.modeCommon then
        Command.modeCommon
      else if hasMarker ∧ kw.modeUnion ≠ [] ∧ stripped = kw.modeUnion then Command.modeUnion
      else if hasMarker ∧ pyStarts kw.font stripped then
        let v := pyStrip (partSpaceTail stripped)
        if v = [] then Command.menuFont else Command.font v
      else if kw.fontPfx ≠ [] ∧ pyStarts kw.fontPfx stripped then
        let v := pyStrip (stripped.drop kw.fontPfx.length)
        if v = [] then Command.menuFont else Command.font v
      else parseTail stripped

/-- Model of `LineCommandParser.parse`. -/
def parse (kw : Keywords) (text : Str) : Command :=
  let sm := stripMarker (pyStrip text)
  parseStripped kw sm.1 sm.2

/-- Every keyword-driven branch of `parse` fails to fire: this is exactly
the condition under which control reaches the quiz-deferral and word
checks (parser steps 6-8). -/
def noKeywordMatched (kw : Keywords) (stripped : Str) (hasMarker : Bool) : Prop :=
  ¬(hasMarker ∧ stripped ∈ kw.help) ∧
  (hasMarker → parse_setting kw stripped = none) ∧
  ¬(hasMarker ∧ kw.listKw ≠ [] ∧ stripped = kw.listKw) ∧
  ¬(hasMarker ∧ kw.menuGenerate ≠ [] ∧ stripped = kw.menuGenerate) ∧
  ¬(hasMarker ∧ kw.menuRegister ≠ [] ∧ stripped = kw.menuRegister) ∧
  ¬(hasMarker ∧ kw.menuList ≠ [] ∧ stripped = kw.menuList) ∧
  ¬(hasMarker ∧ kw.menuSettings ≠ [] ∧ stripped = kw.menuSettings) ∧
  ¬(hasMarker ∧ kw.menuUsage ≠ [] ∧ stripped = kw.menuUsage) ∧
  ¬(hasMarker ∧ kw.menuMode ≠ [] ∧ stripped = kw.menuMode) ∧
  ¬(hasMarker ∧ kw.menuFont ≠ [] ∧ stripped = kw.menuFont) ∧
  ¬(hasMarker ∧ kw.promptKw ≠ [] ∧ pyStarts kw.promptKw stripped) ∧
  ¬(hasMarker ∧ kw.modeCommon ≠ [] ∧ stripped = kw.modeCommon) ∧
  ¬(hasMarker ∧ kw.modeUnion ≠ [] ∧ stripped = kw.modeUnion) ∧
  ¬(hasMarker ∧ pyStarts kw.font stripped) ∧
  ¬(kw.fontPfx ≠ [] ∧ pyStarts kw.fontPfx stripped)

set_option synthInstance.maxSize 400 in
set_option synthInstance.maxHeartbeats 1000000 in
instance (kw : Keywords) (stripped : Str) (hasMarker : Bool) :
    Decidable (noKeywordMatched kw stripped hasMarker) := by
  unfold noKeywordMatched
  infer_instance

/-! ## Quiz message parsing (`LineHandler._parse_quiz_message`) -/

/-- Status triple returned by `_parse_quiz_message` for a text containing a
dot: the tag string together with the optional slot number and word. -/
inductive QuizStatus where
  | invalidNumber
  | invalidLength (number : Nat) (word : Str)
  | invalidWordChars (number : Nat) (word : Str)
  | ok (number : Nat) (word : Str)
deriving DecidableEq

/-- Model of `LineHandler._parse_quiz_message`: strip, split on the first
dot, validate the numeric slot (1-10), then the word length (2-8), then the
character allow-list. -/
def parse_quiz_message (text : Str) : Option QuizStatus :=
  let payload := pyStrip text
  match splitAtFirst '.' payload with
  | none => none
  | some (numText0, word0) =>
    let numText := pyStrip numText0
    let word := pyStrip word0
    if ¬pyIsdigit numText then some QuizStatus.invalidNumber
    else
      let number := natOfDigits numText
      if number < 1 ∨ 10 < number then some QuizStatus.invalidNumber
      else if word.length < 2 ∨ 8 < word.length then some (QuizStatus.invalidLength number word)
      else if ¬is_allowed_word word then some (QuizStatus.invalidWordChars number word)
      else some (QuizStatus.ok number word)

/-! ## Quiz store and bulk list update (`LineHandler`) -/

/-- Per-user quiz slots: slot number to registered word, `none` when the
slot is unregistered.  The storage backends report an unregistered slot as
the empty string; the handler treats empty and absent alike, so an
`Option`-valued map is the faithful abstraction of one user's slots. -/
def QStore := Nat → Option Str

/-- Effect of `quiz_store.set_word` (`v = some w`) or
`quiz_store.delete_word` (`v = none`) on one user's slots. -/
def storeSet (s : QStore) (n : Nat) (v : Option Str) : QStore :=
  fun m => if m = n then v else s m

/-- Loop body of `LineHandler._apply_bulk_quiz_update`: walk the slot
numbers in order, deleting a slot whose word equals the unset label,
validating and writing every other slot, and returning `false` as soon as
a slot is missing from the parsed entries or its word fails validation.
Writes performed before a failure are kept, exactly as in the source. -/
def bulkGo (unset : Str) (entries : Nat → Option Str) : List Nat → QStore → Bool × QStore
  | [], s => (true, s)
  | n :: ns, s =>
    match entries n with
    | none => (false, s)
    | some w =>
      if w = unset then bulkGo unset entries ns (storeSet s n none)
      else if w.length < 2 ∨ 8 < w.length then (false, s)
      else if ¬is_allowed_word w then (false, s)
      else bulkGo unset entries ns (storeSet s n (some w))

/-- Model of `LineHandler._apply_bulk_quiz_update` over slots 1 to 10. -/
def apply_bulk_quiz_update (unset : Str) (entries : Nat → Option Str) (s : QStore) :
    Bool × QStore :=
  bulkGo unset entries (List.range' 1 10) s

/-- Result of `LineHandler._parse_bulk_quiz_list`: `none` when the text is
not a bulk list at all, `some []` for a malformed list (the empty dict
sentinel), otherwise the parsed (slot, word) entries. -/
def parseBulkLines (footer : Option Str) : List Str → List (Nat × Str) → Option (List (Nat × Str))
  | [], acc => some acc
  | line :: rest, acc =>
    if footer = some line then parseBulkLines footer rest acc
    else if pyStarts (ofStr "グループで「@") line then parseBulkLines footer rest acc
    else
      match splitAtFirst '.' line with
      | none => some []
      | some (numText0, word0) =>
        let numText := pyStrip numText0
        let word := pyStrip word0
        if ¬pyIsdigit numText then some []
        else
          let number := natOfDigits numText
          if number < 1 ∨ 10 < number then some []
          else if (acc.find? (fun e => e.1 == number)).isSome then some []
          else parseBulkLines footer rest (acc ++ [(number, word)])

/-- Model of `LineHandler._parse_bulk_quiz_list`: split into nonempty
stripped lines, require the quiz-list title on the first line, then collect
`N. word` entries (skipping the footer hint lines). -/
def parse_bulk_quiz_list (title : Str) (footer : Option Str) (text : Str) :
    Option (List (Nat × Str)) :=
  let lines := ((text.splitOn '\n').map pyStrip).filter (fun l => l ≠ [])
  match lines with
  | [] => none
  | first :: rest =>
    if ¬pyStarts title first then none
    else
      match parseBulkLines footer rest [] with
      | none => none
      | some entries => if entries = [] then some [] else some entries

/-- Lookup of a parsed bulk entry by slot number (Python dict access). -/
def entryLookup (entries : List (Nat × Str)) (n : Nat) : Option Str :=
  (entries.find? (fun e => e.1 == n)).map (·.2)

/-- Composition of the bulk-update path of `LineHandler._handle_event`:
parse the inbound text as a bulk list and, when it is one, apply the
update; `none` means the text is not a bulk list and other handling runs. -/
def handleBulkUpdate (title : Str) (footer : Option Str) (unset : Str) (s : QStore)
    (text : Str) : Option (Bool × QStore) :=
  match parse_bulk_quiz_list title footer text with
  | none => none
  | some entries => some (apply_bulk_quiz_update unset (entryLookup entries) s)

/-! ## Reply messages and configured texts (`main.py`, `LineHandler`) -/

/-- Reply message payloads produced by the handler. -/
inductive Message where
  | text (body : Str)
  | image (url previewUrl : Str)
  | video (url previewUrl : Str)
deriving DecidableEq

/-- Lookup with default over the configured texts dictionary
(`self.texts.get(key, default)`). -/
def textsGet (texts : List (Str × Str)) (key : Str) (dflt : Str) : Str :=
  match lookupStr texts key with
  | some v => v
  | none => dflt

/-- Fuel-driven model of Python `str.format` restricted to named fields:
each `\x7bfield\x7d` occurrence is replaced by its value from `subs`.
The fuel (initialized to the template length) dominates the recursion and
is never exhausted on the templates used here. -/
def pyFormatAux (subs : List (Str × Str)) : Nat → Str → Str
  | 0, s => s
  | _ + 1, [] => []
  | fuel + 1, c :: rest =>
    if c = Char.ofNat 123 then
      match splitAtFirst (Char.ofNat 125) rest with
      | none => c :: rest
      | some (field, tail) =>
        (match lookupStr subs field with
         | some v => v
         | none => []) ++ pyFormatAux subs fuel tail
    else c :: pyFormatAux subs fuel rest

/-- Format a template with named substitutions, Python `str.format` style. -/
def pyFormat (subs : List (Str × Str)) (s : Str) : Str := pyFormatAux subs s.length s

/-- Decimal digits of a number, as Python `str.format` renders an `int`. -/
def natDigits (n : Nat) : Str := (Nat.toDigits 10 n)

/-- The `line_texts` configuration from `main.py` (under the default bot
name), restricted to the keys consulted by the handler slices modelled
here.  Keys absent from `main.py` (notably `answer_template` and
`quiz_list_title`) are absent here too, so the handler's inline defaults
apply. -/
def lineTexts : List (Str × Str) :=
  [(ofStr "invalid_word", ofStr "使用できない文字が含まれています。"),
   (ofStr "invalid_number", ofStr "問題番号は1〜10にしてください。"),
   (ofStr "not_two_chars", ofStr "2〜8文字で送ってください。"),
   (ofStr "answer_format",
    ofStr "解答は以下のフォーマットで送信してください。\n@出題者へのメンション (問題番号).(解答)"),
   (ofStr "unregistered_template", ofStr "{number}問目は未登録です。"),
   (ofStr "mention_fallback", ofStr "ユーザー"),
   (ofStr "quiz_prompt_common", ofStr "何の共通部分？"),
   (ofStr "quiz_prompt_union", ofStr "何の和集合？"),
   (ofStr "quiz_answer_template", ofStr "【解答フォーマット】\n@{name} {number}.(解答)"),
   (ofStr "bulk_update_success", ofStr "問題一覧を更新しました。"),
   (ofStr "bulk_update_failed", ofStr "問題一覧の形式が正しくありません。"),
   (ofStr "quiz_unset", ofStr "未設定"),
   (ofStr "generate_failed", ofStr "画像の生成に失敗しました。"),
   (ofStr "answer_correct", ofStr "正解"),
   (ofStr "answer_incorrect", ofStr "不正解"),
   (ofStr "error_prefix", ofStr "エラー: ")]

/-- Model of `LineHandler._build_mention_message`: a text message whose
body is the answer template formatted with the resolved participant name
and the correctness result. -/
def build_mention_message (texts : List (Str × Str)) (result displayName : Str) : Message :=
  let name := if displayName ≠ [] then displayName
              else textsGet texts (ofStr "mention_fallback") (ofStr "ユーザー")
  Message.text
    (pyFormat [(ofStr "name", name), (ofStr "result", result)]
      (textsGet texts (ofStr "answer_template") (ofStr "{name}さん、{result}です。")))

/-! ## Group answer check and quiz dispatch (`LineHandler._handle_group_message`) -/

/-- Model of the answer-check branch of `_handle_group_message` (exactly
one non-bot participant mentioned): parse the recovered answer payload,
reply with the answer-format help unless it parses as `ok`, with the
unregistered notice when the mentioned participant has no word at the
slot, and otherwise with the correct/incorrect mention message.  `getWord`
is the quiz store lookup for the mentioned participant (empty string for
an unregistered slot, as the storage backends report), `displayName` the
profile lookup result for the answerer (empty when the lookup failed). -/
def group_answer_check (texts : List (Str × Str)) (getWord : Nat → Str)
    (displayName : Str) (answerText : Str) : List Message :=
  match parse_quiz_message answerText with
  | some (QuizStatus.ok number word) =>
    let stored := getWord number
    if stored = [] then
      [Message.text (pyFormat [(ofStr "number", natDigits number)]
        (textsGet texts (ofStr "unregistered_template") (ofStr "{number}問目は未登録です。")))]
    else if stored ≠ [] ∧ stored = word then
      [build_mention_message texts
        (textsGet texts (ofStr "answer_correct") (ofStr "正解")) displayName]
    else
      [build_mention_message texts
        (textsGet texts (ofStr "answer_incorrect") (ofStr "不正解")) displayName]
  | _ =>
    [Message.text (textsGet texts (ofStr "answer_format")
      (ofStr "解答は以下のフォーマットで送信してください。\n@出題者へのメンション (問題番号).(解答)"))]

/-- Model of the quiz-dispatch reply of `_handle_group_message` once a
registered word has been found at the requested slot: the union-mode
branch generates question/answer/union images, the intersection-mode
branch calls the two-character-only `generate_images`; any generation
exception is converted to the prefixed generation-failed text reply.
`qUrl` and `uUrl` abstract the image-store URL resolution. -/
def group_quiz_dispatch (texts : List (Str × Str)) (usable : Str → Bool)
    (render : Str → Char → Glyph) (storedWord senderFont quizMode : Str)
    (displayName : Str) (number : Nat) (qUrl uUrl : Str) : List Message :=
  let answerText := pyFormat
    [(ofStr "name", displayName), (ofStr "number", natDigits number)]
    (textsGet texts (ofStr "quiz_answer_template") (ofStr "【解答フォーマット】\n@{name} {number}.(解答)"))
  let failText := textsGet texts (ofStr "error_prefix") [] ++
    textsGet texts (ofStr "generate_failed") (ofStr "画像の生成に失敗しました。")
  if quizMode = ofStr "union" then
    match generate_images_with_union usable render storedWord senderFont with
    | Except.ok _ =>
      [Message.text (textsGet texts (ofStr "quiz_prompt_union") (ofStr "何の和集合？")),
       Message.image uUrl uUrl,
       Message.text answerText]
    | Except.error _ => [Message.text failText]
  else
    match generate_images usable render storedWord senderFont with
    | Except.ok _ =>
      [Message.text (textsGet texts (ofStr "quiz_prompt_common") (ofStr "何の共通部分？")),
       Message.image qUrl qUrl,
       Message.text answerText]
    | Except.error _ => [Message.text failText]

/-- A bulk-list line passes the update loop's validation: its slot is
present in the parsed entries and its word is the unset label (deletion)
or a 2-8 character allow-listed word (write). -/
def bulkLineOk (unset : Str) (entries : Nat → Option Str) (n : Nat) : Prop :=
  ∃ w, entries n = some w ∧
    (w = unset ∨ (2 ≤ w.length ∧ w.length ≤ 8 ∧ is_allowed_word w = true))

/-- A bulk-list line fails the update loop's validation: its slot is
missing from the parsed entries, or its word differs from the unset label
and has a bad length or a disallowed character. -/
def bulkLineFails (unset : Str) (entries : Nat → Option Str) (n : Nat) : Prop :=
  entries n = none ∨ ∃ w, entries n = some w ∧ w ≠ unset ∧
    (w.length < 2 ∨ 8 < w.length ∨ is_allowed_word w = false)

/-- The slot value written by the bulk-update loop for a line it accepts:
deletion for the unset label, the word otherwise; the prior value survives
only when the slot is absent. -/
def appliedSlot (unset : Str) (e : Option Str) (old : Option Str) : Option Str :=
  match e with
  | none => old
  | some w => if w = unset then none else some w

/-- The `line_keywords` configuration from `main.py` (no `prompt` keyword
is configured there). -/
def lineKeywords : Keywords where
  help := [ofStr "使い方", ofStr "ヘルプ", ofStr "help"]
  setting := ofStr "設定"
  listKw := ofStr "問題一覧"
  menuGenerate := ofStr "合成"
  menuRegister := ofStr "問題登録"
  menuList := ofStr "問題一覧"
  menuSettings := ofStr "設定"
  menuUsage := ofStr "使い方"
  menuMode := ofStr "出題モード"
  menuFont := ofStr "フォント"
  promptKw := []
  modeCommon := ofStr "共通部分"
  modeUnion := ofStr "和集合"
  font := ofStr "フォント"
  fontPfx := ofStr "font_"

/-! ## Theorems -/

/-- C3: for every pair of glyph bitmaps and every pixel coordinate of the
1024 x 1024 canvas, the question image of the pair-diff operation
(`_process_pixels`) equals the N-way intersection image
(`_process_intersection_pixels`) computed over the two-element list. -/
theorem pair_diff_question_eq_intersection (a b : Glyph) (x y : Nat)
    (hx : x < 1024) (hy : y < 1024) :
    (process_pixels a b x y).1 = process_intersection_pixels [a, b] x y := by
  unfold process_pixels process_intersection_pixels
  by_cases h1 : a x y = BLACK <;> by_cases h2 : b x y = BLACK <;> simp [h1, h2]

/-- Witness for C3 at a concrete pixel of concrete bitmaps. -/
theorem pair_diff_question_eq_intersection_witness :
    (process_pixels (fun _ _ => BLACK) (fun _ _ => WHITE) 0 0).1 =
      process_intersection_pixels [fun _ _ => BLACK, fun _ _ => WHITE] 0 0 :=
  pair_diff_question_eq_intersection _ _ 0 0 (by decide) (by decide)

/-- C4: for every non-empty list of glyph bitmaps and every pixel
coordinate, a pixel that is ink (black) in the intersection image is also
ink in the union image. -/
theorem intersection_ink_subset_union (ps : List Glyph) (x y : Nat)
    (hne : ps ≠ []) (hx : x < 1024) (hy : y < 1024)
    (h : process_intersection_pixels ps x y = rgbOf BLACK) :
    process_union_pixels_multi ps x y = rgbOf BLACK := by
  unfold process_intersection_pixels at h
  unfold process_union_pixels_multi
  by_cases hall : ps.all (fun p => decide (p x y = BLACK)) = true
  · rw [if_pos]
    cases ps with
    | nil => exact absurd rfl hne
    | cons p t =>
      refine List.any_eq_true.mpr ⟨p, List.mem_cons_self p t, ?_⟩
      exact List.all_eq_true.mp hall p (List.mem_cons_self p t)
  · rw [if_neg hall] at h
    exact absurd h (by decide)

/-- Witness for C4 at a concrete non-empty list of bitmaps. -/
theorem intersection_ink_subset_union_witness :
    process_union_pixels_multi [fun _ _ => BLACK] 0 0 = rgbOf BLACK :=
  intersection_ink_subset_union [fun _ _ => BLACK] 0 0 (by simp) (by decide) (by decide)
    (by decide)

/-- Reduction of the `k > 1` branch of `_process_step_pixels` to its
propositional case analysis over the prefix and next glyph ink tests. -/
theorem process_step_pixels_spec (ps : List Glyph) (k x y : Nat) (hk : ¬k = 1) :
    process_step_pixels ps k x y =
      if (∀ p ∈ ps.take k, p x y = BLACK) ∧ ¬(ps.getD k blankGlyph) x y = BLACK then
        rgbOf RED
      else if (∀ p ∈ ps.take k, p x y = BLACK) ∧ (ps.getD k blankGlyph) x y = BLACK then
        rgbOf PURPLE
      else if (∃ p ∈ ps.take k, p x y = BLACK) ∧ ¬(ps.getD k blankGlyph) x y = BLACK then
        RED_SOFT
      else if (ps.getD k blankGlyph) x y = BLACK then rgbOf BLUE
      else rgbOf WHITE := by
  unfold process_step_pixels
  rw [if_neg hk]
  simp only [Bool.and_eq_true, Bool.not_eq_true', List.all_eq_true, List.any_eq_true,
    decide_eq_true_eq, decide_eq_false_iff_not]


/-- Propositional case analysis for a four-way conditional of the
step-frame shape, over abstract ink conditions. -/
theorem step_case_helper (PA PEx PN : Prop) [Decidable PA] [Decidable PEx] [Decidable PN]
    (himp : PA → PEx) :
    ((if PA ∧ ¬PN then rgbOf RED else if PA ∧ PN then rgbOf PURPLE
      else if PEx ∧ ¬PN then RED_SOFT else if PN then rgbOf BLUE else rgbOf WHITE) =
        rgbOf RED ↔ (PA ∧ ¬PN)) ∧
    ((if PA ∧ ¬PN then rgbOf RED else if PA ∧ PN then rgbOf PURPLE
      else if PEx ∧ ¬PN then RED_SOFT else if PN then rgbOf BLUE else rgbOf WHITE) =
        rgbOf PURPLE ↔ (PA ∧ PN)) ∧
    ((if PA ∧ ¬PN then rgbOf RED else if PA ∧ PN then rgbOf PURPLE
      else if PEx ∧ ¬PN then RED_SOFT else if PN then rgbOf BLUE else rgbOf WHITE) =
        RED_SOFT ↔ ((PEx ∧ ¬PA) ∧ ¬PN)) ∧
    ((if PA ∧ ¬PN then rgbOf RED else if PA ∧ PN then rgbOf PURPLE
      else if PEx ∧ ¬PN then RED_SOFT else if PN then rgbOf BLUE else rgbOf WHITE) =
        rgbOf BLUE ↔ (PN ∧ ¬PA)) ∧
    ((if PA ∧ ¬PN then rgbOf RED else if PA ∧ PN then rgbOf PURPLE
      else if PEx ∧ ¬PN then RED_SOFT else if PN then rgbOf BLUE else rgbOf WHITE) =
        rgbOf WHITE ↔ (¬PEx ∧ ¬PN)) := by
  by_cases hA : PA <;> by_cases hE : PEx <;> by_cases hN : PN <;>
    first
      | exact absurd (himp hA) hE
      | (refine ⟨?_, ?_, ?_, ?_, ?_⟩ <;>
          simp [hA, hE, hN, rgbOf, RED, PURPLE, RED_SOFT, BLUE, WHITE])

/-- C2: for a glyph list of length 3 to 8, a step index `k` with
`1 < k ≤ N-1` and any pixel coordinate, the step frame is red iff all `k`
prefix glyphs are ink and glyph `k` is not; purple iff all prefix glyphs
are ink and glyph `k` is ink; soft-red iff some but not all prefix glyphs
are ink and glyph `k` is not; blue iff glyph `k` is ink and the prefix is
not uniformly ink; and white otherwise (no prefix ink and glyph `k` not
ink). -/
theorem step_frame_color_cases (ps : List Glyph) (k x y : Nat)
    (hn3 : 3 ≤ ps.length) (hn8 : ps.length ≤ 8) (hk1 : 1 < k)
    (hkN : k ≤ ps.length - 1) (hx : x < 1024) (hy : y < 1024) :
    (process_step_pixels ps k x y = rgbOf RED ↔
      ((∀ p ∈ ps.take k, p x y = BLACK) ∧ ¬(ps.getD k blankGlyph) x y = BLACK)) ∧
    (process_step_pixels ps k x y = rgbOf PURPLE ↔
      ((∀ p ∈ ps.take k, p x y = BLACK) ∧ (ps.getD k blankGlyph) x y = BLACK)) ∧
    (process_step_pixels ps k x y = RED_SOFT ↔
      (((∃ p ∈ ps.take k, p x y = BLACK) ∧ ¬(∀ p ∈ ps.take k, p x y = BLACK)) ∧
        ¬(ps.getD k blankGlyph) x y = BLACK)) ∧
    (process_step_pixels ps k x y = rgbOf BLUE ↔
      ((ps.getD k blankGlyph) x y = BLACK ∧ ¬(∀ p ∈ ps.take k, p x y = BLACK))) ∧
    (process_step_pixels ps k x y = rgbOf WHITE ↔
      (¬(∃ p ∈ ps.take k, p x y = BLACK) ∧ ¬(ps.getD k blankGlyph) x y = BLACK)) := by
  have hkne : ¬k = 1 := by omega
  have hpos : 0 < (ps.take k).length := by rw [List.length_take]; omega
  rcases List.exists_mem_of_length_pos hpos with ⟨p0, hp0⟩
  rw [process_step_pixels_spec ps k x y hkne]
  exact step_case_helper _ _ _ (fun h => ⟨p0, hp0, h p0 hp0⟩)

/-- Witness for C2 on a concrete three-glyph list at step 2. -/
theorem step_frame_color_cases_witness :
    process_step_pixels [fun _ _ => BLACK, fun _ _ => BLACK, fun _ _ => WHITE] 2 0 0 =
      rgbOf RED ↔
      ((∀ p ∈ ([fun _ _ => BLACK, fun _ _ => BLACK, fun _ _ => WHITE] :
          List Glyph).take 2, p 0 0 = BLACK) ∧
        ¬(([fun _ _ => BLACK, fun _ _ => BLACK, fun _ _ => WHITE] :
          List Glyph).getD 2 blankGlyph) 0 0 = BLACK) :=
  (step_frame_color_cases [fun _ _ => BLACK, fun _ _ => BLACK, fun _ _ => WHITE] 2 0 0
    (by decide) (by decide) (by decide) (by decide) (by decide) (by decide)).1

/-- The font normalizer never reports a word-length error. -/
theorem normalize_font_key_ne_length (fk : Option Str) :
    normalize_font_key fk ≠ Except.error GenErr.invalidWordLength := by
  unfold normalize_font_key
  cases fk with
  | none => simp
  | some s =>
    dsimp only
    split_ifs <;> simp

/-- The font resolver never reports a word-length error. -/
theorem get_font_for_key_ne_length (usable : Str → Bool) (key : Str) :
    get_font_for_key usable key ≠ Except.error GenErr.invalidWordLength := by
  unfold get_font_for_key
  split_ifs with h
  · simp
  · cases lookupStr fontKeyMap key with
    | none => simp
    | some path =>
      dsimp only
      split_ifs <;> simp

/-- C6: the composite-with-union generation raises the invalid-word-length
error exactly when the word length is outside `[2, 8]`; for a word of
length exactly 2 or exactly 8 and a font key that normalizes and resolves,
generation succeeds. -/
theorem generate_with_union_length_policy (usable : Str → Bool)
    (render : Str → Char → Glyph) (word fontKey : Str) :
    (generate_images_with_union usable render word fontKey =
        Except.error GenErr.invalidWordLength ↔
      (word.length < 2 ∨ 8 < word.length)) ∧
    (∀ nk fp, normalize_font_key (some fontKey) = Except.ok nk →
      get_font_for_key usable nk = Except.ok fp →
      (word.length = 2 ∨ word.length = 8) →
      ∃ out, generate_images_with_union usable render word fontKey = Except.ok out) := by
  constructor
  · constructor
    · intro h
      by_cases hlen : word.length < 2 ∨ 8 < word.length
      · exact hlen
      · exfalso
        unfold generate_images_with_union at h
        rw [if_neg hlen] at h
        rcases hnorm : normalize_font_key (some fontKey) with e | nk
        · rw [hnorm] at h
          dsimp only at h
          simp only [Except.error.injEq] at h
          exact normalize_font_key_ne_length (some fontKey) (by rw [hnorm, h])
        · rw [hnorm] at h
          dsimp only at h
          rcases hfont : get_font_for_key usable nk with e | fp
          · rw [hfont] at h
            dsimp only at h
            simp only [Except.error.injEq] at h
            exact get_font_for_key_ne_length usable nk (by rw [hfont, h])
          · rw [hfont] at h
            dsimp only at h
            by_cases h2 : word.length = 2
            · rw [if_pos h2] at h
              exact Except.noConfusion h
            · rw [if_neg h2] at h
              exact Except.noConfusion h
    · intro hlen
      unfold generate_images_with_union
      rw [if_pos hlen]
  · intro nk fp hnorm hfont hlen28
    have hlen : ¬(word.length < 2 ∨ 8 < word.length) := by omega
    unfold generate_images_with_union
    rw [if_neg hlen, hnorm]
    dsimp only
    rw [hfont]
    dsimp only
    by_cases h2 : word.length = 2
    · rw [if_pos h2]
      exact ⟨_, rfl⟩
    · rw [if_neg h2]
      exact ⟨_, rfl⟩

/-- Witness for C6: a concrete two-character word with the registered,
usable `mincho` font key generates successfully. -/
theorem generate_with_union_length_policy_witness :
    ∃ out, generate_images_with_union (fun _ => true) (fun _ _ => blankGlyph)
      (ofStr "ab") (ofStr "mincho") = Except.ok out :=
  (generate_with_union_length_policy (fun _ => true) (fun _ _ => blankGlyph)
      (ofStr "ab") (ofStr "mincho")).2 (ofStr "mincho")
    (ofStr "/app/.fonts/Honoka_Shin_Mincho_L.otf") rfl rfl (Or.inl rfl)

/-- A string that fully matches the spec pattern also matches the Python
pattern (the Python reading only adds newline tolerance). -/
theorem fontPatternSpec_imp_py (s : Str) (h : fontPatternSpec s = true) :
    fontPatternPy s = true := by
  unfold fontPatternSpec at h
  unfold fontPatternPy
  simp only [Bool.and_eq_true, decide_eq_true_eq, List.all_eq_true] at h ⊢
  have hlast : ¬s.getLast? = some '\n' := by
    intro hl
    have hmem : '\n' ∈ s := by
      rcases List.mem_getLast?_eq_getLast (show '\n' ∈ s.getLast? from hl) with ⟨hne, heq⟩
      rw [heq]
      exact List.getLast_mem hne
    have := h.2 '\n' hmem
    simp [isAlnumAscii, isAsciiDigit] at this
  rw [if_neg hlast]
  exact h

/-- A string accepted by the Python pattern but rejected by the spec
pattern carries a trailing newline, so it is neither `"default"` nor a
registered font key. -/
theorem fontPatternPy_of_not_spec (s : Str) (hpy : fontPatternPy s = true)
    (hspec : fontPatternSpec s = false) :
    s ≠ ofStr "default" ∧ lookupStr fontKeyMap s = none := by
  have hlast : s.getLast? = some '\n' := by
    by_contra hne
    unfold fontPatternPy at hpy
    rw [if_neg hne] at hpy
    unfold fontPatternSpec at hspec
    rw [hpy] at hspec
    exact Bool.noConfusion hspec
  constructor
  · intro he
    rw [he] at hlast
    exact absurd hlast (by decide)
  · have hfind : List.find? (fun kv => kv.1 == s) fontKeyMap = none := by
      rw [List.find?_eq_none]
      intro kv hkv
      have hk : kv.1.getLast? ≠ some '\n' := by
        simp only [fontKeyMap, List.mem_cons, List.not_mem_nil, or_false] at hkv
        rcases hkv with h | h | h | h <;> subst h <;> decide
      intro hbeq
      have hkv1 : kv.1 = s := by
        simpa using hbeq
      rw [hkv1] at hk
      exact hk hlast
    unfold lookupStr
    rw [hfind]
    rfl

/-- C7: font-key normalization maps the empty (or absent) identifier to
`"default"`; any other identifier is rejected exactly when it fails the
`[A-Za-z0-9]` 2-10 pattern or is neither `"default"` nor a registered key;
on success the identifier is returned unchanged.  The model is a pure
function of the identifier and the static registry, so no filesystem
probing is involved. -/
theorem normalize_font_key_spec :
    (normalize_font_key none = Except.ok (ofStr "default") ∧
     normalize_font_key (some []) = Except.ok (ofStr "default")) ∧
    ∀ s : Str, s ≠ [] →
      (((normalize_font_key (some s)).isOk = false) ↔
        (fontPatternSpec s = false ∨
          (s ≠ ofStr "default" ∧ lookupStr fontKeyMap s = none))) ∧
      ((normalize_font_key (some s)).isOk = true →
        normalize_font_key (some s) = Except.ok s) := by
  refine ⟨⟨rfl, rfl⟩, ?_⟩
  intro s hs
  unfold normalize_font_key
  dsimp only
  rw [if_neg hs]
  by_cases hpy : fontPatternPy s = true
  · rw [if_neg (by simp [hpy])]
    by_cases hreg : s ≠ ofStr "default" ∧ lookupStr fontKeyMap s = none
    · rw [if_pos hreg]
      constructor
      · exact ⟨fun _ => Or.inr hreg, fun _ => rfl⟩
      · intro h
        exact Bool.noConfusion h
    · rw [if_neg hreg]
      constructor
      · constructor
        · intro h
          exact Bool.noConfusion h
        · intro h
          rcases h with hspec | hr
          · exact absurd (fontPatternPy_of_not_spec s hpy hspec) hreg
          · exact absurd hr hreg
      · intro _
        rfl
  · rw [if_pos (by simpa using hpy)]
    constructor
    · constructor
      · intro _
        left
        by_contra hspec
        exact hpy (fontPatternSpec_imp_py s (by simpa using hspec))
      · intro _
        rfl
    · intro h
      exact Bool.noConfusion h

/-- Witness for C7 at the concrete registered identifier `mincho`. -/
theorem normalize_font_key_spec_witness :
    normalize_font_key (some (ofStr "mincho")) = Except.ok (ofStr "mincho") :=
  (normalize_font_key_spec.2 (ofStr "mincho") (by decide)).2 rfl

/-- C10 (implicit): with the sender's quiz mode at its `"intersection"`
default and a registered word of length 3 to 8, the group quiz dispatch
never produces a question image: the handler calls the
two-character-only `generate_images`, which raises for any word whose
length is not exactly 2, so the reply is always the generic prefixed
generation-failed text and contains no image or video message. -/
theorem group_dispatch_intersection_long_word_fails (usable : Str → Bool)
    (render : Str → Char → Glyph) (storedWord senderFont quizMode displayName : Str)
    (number : Nat) (qUrl uUrl : Str)
    (hmode : quizMode = ofStr "intersection")
    (hlen3 : 3 ≤ storedWord.length) (hlen8 : storedWord.length ≤ 8) :
    group_quiz_dispatch lineTexts usable render storedWord senderFont quizMode
        displayName number qUrl uUrl =
      [Message.text (ofStr "エラー: 画像の生成に失敗しました。")] ∧
    ∀ u v : Str, Message.image u v ∉
      group_quiz_dispatch lineTexts usable render storedWord senderFont quizMode
        displayName number qUrl uUrl := by
  subst hmode
  have hgen : generate_images usable render storedWord senderFont =
      Except.error GenErr.invalidTwoCharOnly := by
    unfold generate_images
    rw [if_pos (by omega : storedWord.length ≠ 2)]
  have hrepl : group_quiz_dispatch lineTexts usable render storedWord senderFont
      (ofStr "intersection") displayName number qUrl uUrl =
      [Message.text (ofStr "エラー: 画像の生成に失敗しました。")] := by
    unfold group_quiz_dispatch
    rw [if_neg (by decide : ¬(ofStr "intersection" = ofStr "union"))]
    rw [hgen]
    dsimp only
    rfl
  refine ⟨hrepl, ?_⟩
  intro u v hmem
  rw [hrepl] at hmem
  simp at hmem

/-- Witness for C10 at a concrete three-character stored word. -/
theorem group_dispatch_intersection_long_word_fails_witness :
    group_quiz_dispatch lineTexts (fun _ => true) (fun _ _ => blankGlyph)
        (ofStr "音楽性") (ofStr "default") (ofStr "intersection") (ofStr "名前") 2
        (ofStr "https://q") (ofStr "https://u") =
      [Message.text (ofStr "エラー: 画像の生成に失敗しました。")] :=
  (group_dispatch_intersection_long_word_fails (fun _ => true) (fun _ _ => blankGlyph)
    (ofStr "音楽性") (ofStr "default") (ofStr "intersection") (ofStr "名前") 2
    (ofStr "https://q") (ofStr "https://u") rfl (by decide) (by decide)).1

/-- Splitting at the first separator recovers a separator-free left part. -/
theorem splitAtFirst_append (pre : Str) (c : Char) (rest : Str) (h : c ∉ pre) :
    splitAtFirst c (pre ++ c :: rest) = some (pre, rest) := by
  induction pre with
  | nil => simp [splitAtFirst]
  | cons a t ih =>
    have hne : ¬a = c := fun he => h (he ▸ List.mem_cons_self a t)
    have hnm : c ∉ t := fun hm => h (List.mem_cons_of_mem a hm)
    simp [splitAtFirst, hne, ih hnm]

/-- A string of non-whitespace characters is unchanged by the right strip. -/
theorem pyRstrip_eq_self (s : Str) (h : ∀ c ∈ s, pyIsSpace c = false) :
    pyRstrip s = s := by
  unfold pyRstrip
  have : s.reverse.dropWhile pyIsSpace = s.reverse := by
    cases hs : s.reverse with
    | nil => rfl
    | cons a t =>
      rw [List.dropWhile_cons]
      have ha : a ∈ s := by
        rw [← List.mem_reverse, hs]
        exact List.mem_cons_self a t
      rw [h a ha]
      simp
  rw [this, List.reverse_reverse]

/-- A string whose head is not whitespace is unchanged by the left strip. -/
theorem pyLstrip_cons_of_not_space (a : Char) (t : Str) (h : pyIsSpace a = false) :
    pyLstrip (a :: t) = a :: t := by
  unfold pyLstrip
  rw [List.dropWhile_cons, h]
  simp

/-- A string of non-whitespace characters is unchanged by `strip`. -/
theorem pyStrip_eq_self (s : Str) (h : ∀ c ∈ s, pyIsSpace c = false) :
    pyStrip s = s := by
  unfold pyStrip
  rw [pyRstrip_eq_self s h]
  cases s with
  | nil => rfl
  | cons a t => exact pyLstrip_cons_of_not_space a t (h a (List.mem_cons_self a t))

/-- Dropping a matching run twice is the same as dropping it once. -/
theorem dropWhile_self_idem (p : Char → Bool) (l : Str) :
    List.dropWhile p (List.dropWhile p l) = List.dropWhile p l := by
  induction l with
  | nil => rfl
  | cons a t ih =>
    rw [List.dropWhile_cons]
    by_cases h : p a = true
    · rw [if_pos h]
      exact ih
    · rw [if_neg h, List.dropWhile_cons, if_neg h]

/-- The right strip is idempotent. -/
theorem pyRstrip_idem (s : Str) : pyRstrip (pyRstrip s) = pyRstrip s := by
  unfold pyRstrip
  rw [List.reverse_reverse, dropWhile_self_idem]

/-- Stripping after a right strip equals a plain strip. -/
theorem pyStrip_pyRstrip (s : Str) : pyStrip (pyRstrip s) = pyStrip s := by
  unfold pyStrip
  rw [pyRstrip_idem]

/-- ASCII digits are not whitespace. -/
theorem not_space_of_digit (c : Char) (h : isAsciiDigit c = true) :
    pyIsSpace c = false := by
  unfold isAsciiDigit at h
  simp only [Bool.and_eq_true, decide_eq_true_eq] at h
  unfold pyIsSpace
  simp only [Bool.or_eq_false_iff, decide_eq_false_iff_not, beq_eq_false_iff_ne, ne_eq]
  omega

/-- The right strip distributes over a digits-dot head as expected. -/
theorem pyRstrip_append_dot (num rest : Str) :
    pyRstrip (num ++ '.' :: rest) = num ++ '.' :: pyRstrip rest := by
  unfold pyRstrip
  rw [List.reverse_append, List.reverse_cons, List.append_assoc, List.singleton_append,
    List.dropWhile_append]
  by_cases he : (rest.reverse.dropWhile pyIsSpace).isEmpty
  · rw [if_pos he, List.dropWhile_cons]
    have : pyIsSpace '.' = false := by decide
    rw [this]
    simp only [List.isEmpty_iff] at he
    rw [he]
    simp
  · rw [if_neg he]
    simp

/-- C8: quiz registration/answer parsing splits on the first dot with the
entire digit prefix as the slot number, so `"10.ok"` means slot 10 with
word `"ok"` rather than slot 1 with word `"0.ok"`; a prefix that is not a
1-10 number yields `invalid_number` before any word character is checked;
and in general, for any digit prefix, the parsed number is the numeric
value of the whole prefix and the word is everything after the first dot. -/
theorem parse_quiz_message_greedy :
    (parse_quiz_message (ofStr "10.ok") = some (QuizStatus.ok 10 (ofStr "ok"))) ∧
    (∀ text numText word, splitAtFirst '.' (pyStrip text) = some (numText, word) →
      pyIsdigit (pyStrip numText) = false →
      parse_quiz_message text = some QuizStatus.invalidNumber) ∧
    (∀ num rest, num ≠ [] → num.all isAsciiDigit = true →
      parse_quiz_message (num ++ '.' :: rest) =
        (if natOfDigits num < 1 ∨ 10 < natOfDigits num then some QuizStatus.invalidNumber
         else if (pyStrip rest).length < 2 ∨ 8 < (pyStrip rest).length then
           some (QuizStatus.invalidLength (natOfDigits num) (pyStrip rest))
         else if ¬is_allowed_word (pyStrip rest) then
           some (QuizStatus.invalidWordChars (natOfDigits num) (pyStrip rest))
         else some (QuizStatus.ok (natOfDigits num) (pyStrip rest)))) := by
  refine ⟨by decide, ?_, ?_⟩
  · intro text numText word hsplit hnotdig
    unfold parse_quiz_message
    dsimp only
    rw [hsplit]
    dsimp only
    rw [if_pos (by simp [hnotdig])]
  · intro num rest hne hdig
    have hnospace : ∀ c ∈ num, pyIsSpace c = false :=
      fun c hc => not_space_of_digit c (List.all_eq_true.mp hdig c hc)
    have hdot : '.' ∉ num := by
      intro hm
      have := List.all_eq_true.mp hdig '.' hm
      exact absurd this (by decide)
    have hstrip : pyStrip (num ++ '.' :: rest) = num ++ '.' :: pyRstrip rest := by
      unfold pyStrip
      rw [pyRstrip_append_dot]
      cases num with
      | nil => exact absurd rfl hne
      | cons a t =>
        rw [List.cons_append]
        exact pyLstrip_cons_of_not_space a (t ++ '.' :: pyRstrip rest)
          (hnospace a (List.mem_cons_self a t))
    unfold parse_quiz_message
    dsimp only
    rw [hstrip, splitAtFirst_append num '.' (pyRstrip rest) hdot]
    dsimp only
    rw [pyStrip_eq_self num hnospace, pyStrip_pyRstrip rest]
    have hdigit : pyIsdigit num = true := by
      unfold pyIsdigit
      rw [hdig]
      cases num with
      | nil => exact absurd rfl hne
      | cons a t => rfl
    rw [if_neg (by simp [hdigit])]

/-- Witness for C8: the general digit-prefix rule applied to `"10.ok"`
parses it as slot 10 with word `"ok"`. -/
theorem parse_quiz_message_greedy_witness :
    parse_quiz_message (ofStr "10" ++ '.' :: ofStr "ok") =
      some (QuizStatus.ok 10 (ofStr "ok")) :=
  (parse_quiz_message_greedy.2.2 (ofStr "10") (ofStr "ok") (by decide)
    (by decide)).trans (by decide)

/-- When no keyword branch fires, the parser falls through to the
quiz-deferral and word checks. -/
theorem parseStripped_of_noKeyword (kw : Keywords) (st : Str) (hp : Bool)
    (h : noKeywordMatched kw st hp) :
    parseStripped kw st hp = parseTail st := by
  obtain ⟨h1, h2, h3, h4, h5, h6, h7, h8, h9, h10, h11, h12, h13, h14, h15⟩ := h
  unfold parseStripped
  rw [if_neg h1]
  have hset : (if hp then parse_setting kw st else none) = none := by
    cases hp with
    | false => rfl
    | true => simpa using h2 rfl
  rw [hset]
  dsimp only
  rw [if_neg h3, if_neg h4, if_neg h5, if_neg h6, if_neg h7, if_neg h8, if_neg h9,
    if_neg h10, if_neg h11, if_neg h12, if_neg h13, if_neg h14, if_neg h15]

/-- C5: for any keyword table and input whose processing reaches parser
step 7 (none of the keyword branches fired, and the remaining stripped
text contains no dot), a remaining text of length 2 to 8 parses to
`invalid_word` when some character is outside the allow-list and to
`both` with that text as the word otherwise; a remaining text of length 1
or 9 never parses to `both`. -/
theorem parser_step7_word_check (kw : Keywords) (text st : Str) (hp : Bool)
    (hsm : stripMarker (pyStrip text) = (st, hp))
    (hnk : noKeywordMatched kw st hp)
    (hdot : st.contains '.' = false) :
    ((2 ≤ st.length ∧ st.length ≤ 8) →
      parse kw text =
        (if is_allowed_word st then Command.both st else Command.invalidWord)) ∧
    ((st.length = 1 ∨ st.length = 9) → ∀ w, parse kw text ≠ Command.both w) := by
  have hparse : parse kw text = parseTail st := by
    unfold parse
    dsimp only
    rw [hsm]
    exact parseStripped_of_noKeyword kw st hp hnk
  constructor
  · intro hlen
    rw [hparse]
    unfold parseTail
    rw [if_neg (by simpa using hdot), if_pos hlen]
  · intro hlen w
    rw [hparse]
    unfold parseTail
    rw [if_neg (by simpa using hdot), if_neg (by omega)]
    exact fun h => Command.noConfusion h

/-- Witness for C5: with the deployed keyword table, the two-character
text `音楽` parses through step 7 into a compose request. -/
theorem parser_step7_word_check_witness :
    parse lineKeywords (ofStr "音楽") =
      (if is_allowed_word (ofStr "音楽") then Command.both (ofStr "音楽")
       else Command.invalidWord) :=
  (parser_step7_word_check lineKeywords (ofStr "音楽") (ofStr "音楽") false rfl
    (by decide) (by decide)).1 (by decide)

/-- Under the deployed texts the mention message is the resolved name,
the honorific connective, the result and the closing particle (the
handler's inline default template, since `main.py` configures no
`answer_template`). -/
theorem build_mention_message_lineTexts (result displayName : Str) :
    build_mention_message lineTexts result displayName =
      Message.text ((if displayName ≠ [] then displayName else ofStr "ユーザー") ++
        (ofStr "さん、" ++ (result ++ ofStr "です。"))) := rfl

/-- The correct and incorrect mention messages are distinct for every
display name (their texts differ in length). -/
theorem mention_correct_ne_incorrect (displayName : Str) :
    build_mention_message lineTexts (ofStr "正解") displayName ≠
      build_mention_message lineTexts (ofStr "不正解") displayName := by
  rw [build_mention_message_lineTexts, build_mention_message_lineTexts]
  intro h
  injection h with h'
  have hl := congrArg List.length h'
  simp only [List.length_append] at hl
  have : (ofStr "正解").length = 2 := by decide
  have : (ofStr "不正解").length = 3 := by decide
  omega

/-- C9: for a group answer-check event with a well-formed
`number.word` payload and a word registered at that slot for the
mentioned participant, the reply is the "correct" mention message exactly
when the submitted word is string-equal to the stored word and the
"incorrect" mention message otherwise; both replies carry the answerer's
resolved display name. -/
theorem group_answer_check_exact_equality (getWord : Nat → Str)
    (displayName answerText : Str) (number : Nat) (word : Str)
    (hparse : parse_quiz_message answerText = some (QuizStatus.ok number word))
    (hreg : getWord number ≠ []) :
    (group_answer_check lineTexts getWord displayName answerText =
        [build_mention_message lineTexts (ofStr "正解") displayName] ↔
      getWord number = word) ∧
    (getWord number ≠ word →
      group_answer_check lineTexts getWord displayName answerText =
        [build_mention_message lineTexts (ofStr "不正解") displayName]) ∧
    (∀ m ∈ group_answer_check lineTexts getWord displayName answerText,
      ∃ post, m = Message.text
        ((if displayName ≠ [] then displayName else ofStr "ユーザー") ++ post)) := by
  unfold group_answer_check
  rw [hparse]
  dsimp only
  rw [if_neg hreg]
  by_cases heq : getWord number = word
  · rw [if_pos ⟨hreg, heq⟩]
    refine ⟨⟨fun _ => heq, fun _ => rfl⟩, fun hne => absurd heq hne, ?_⟩
    intro m hm
    rw [List.mem_singleton] at hm
    subst hm
    exact ⟨_, build_mention_message_lineTexts _ _⟩
  · rw [if_neg (fun hand => heq hand.2)]
    refine ⟨⟨?_, fun habs => absurd habs heq⟩, fun _ => rfl, ?_⟩
    · intro habs
      exfalso
      have hhd : build_mention_message lineTexts
          (textsGet lineTexts (ofStr "answer_incorrect") (ofStr "不正解")) displayName =
          build_mention_message lineTexts (ofStr "正解") displayName := by
        injection habs
      exact mention_correct_ne_incorrect displayName hhd.symm
    · intro m hm
      rw [List.mem_singleton] at hm
      subst hm
      exact ⟨_, build_mention_message_lineTexts _ _⟩

/-- Witness for C9 at the scenario of the spec: slot 2 holds `音楽性`,
the answerer submits the same word and then a near-miss. -/
theorem group_answer_check_exact_equality_witness :
    group_answer_check lineTexts (fun n => if n = 2 then ofStr "音楽性" else [])
        (ofStr "答者") (ofStr "2.音楽性") =
      [build_mention_message lineTexts (ofStr "正解") (ofStr "答者")] :=
  (group_answer_check_exact_equality (fun n => if n = 2 then ofStr "音楽性" else [])
      (ofStr "答者") (ofStr "2.音楽性") 2 (ofStr "音楽性") (by decide)
      (by decide)).1.mpr (by decide)

/-- Behaviour of the bulk-update loop when the slots it visits are valid
up to a failing slot: the loop reports failure, every slot outside the
already-visited list keeps its prior value, and every visited slot has
been written (or deleted) according to its line. -/
theorem bulkGo_fail (unset : Str) (entries : Nat → Option Str) :
    ∀ (l1 : List Nat) (k : Nat) (l2 : List Nat) (s : QStore),
      (∀ j ∈ l1, bulkLineOk unset entries j) →
      bulkLineFails unset entries k →
      (bulkGo unset entries (l1 ++ k :: l2) s).1 = false ∧
      (∀ j, j ∉ l1 → (bulkGo unset entries (l1 ++ k :: l2) s).2 j = s j) ∧
      (∀ j ∈ l1, (bulkGo unset entries (l1 ++ k :: l2) s).2 j =
        appliedSlot unset (entries j) (s j)) := by
  intro l1
  induction l1 with
  | nil =>
    intro k l2 s hok hfail
    simp only [List.nil_append]
    rcases hfail with hnone | ⟨w, hw, hne, hbad⟩
    · unfold bulkGo
      rw [hnone]
      exact ⟨rfl, fun j _ => rfl, fun j hj => absurd hj (List.not_mem_nil j)⟩
    · unfold bulkGo
      rw [hw]
      dsimp only
      rw [if_neg hne]
      by_cases hlen : w.length < 2 ∨ 8 < w.length
      · rw [if_pos hlen]
        exact ⟨rfl, fun j _ => rfl, fun j hj => absurd hj (List.not_mem_nil j)⟩
      · have hal : is_allowed_word w = false := by
          rcases hbad with h | h | h
          · exact absurd (Or.inl h) hlen
          · exact absurd (Or.inr h) hlen
          · exact h
        rw [if_neg hlen, if_pos (by simp [hal])]
        exact ⟨rfl, fun j _ => rfl, fun j hj => absurd hj (List.not_mem_nil j)⟩
  | cons j0 t ih =>
    intro k l2 s hok hfail
    obtain ⟨w0, hw0, hcase⟩ := hok j0 (List.mem_cons_self j0 t)
    have hokt : ∀ j ∈ t, bulkLineOk unset entries j :=
      fun j hj => hok j (List.mem_cons_of_mem j0 hj)
    simp only [List.cons_append]
    unfold bulkGo
    rw [hw0]
    dsimp only
    by_cases hu : w0 = unset
    · rw [if_pos hu]
      have ihres := ih k l2 (storeSet s j0 none) hokt hfail
      refine ⟨ihres.1, ?_, ?_⟩
      · intro j hj
        have hj0 : ¬j = j0 := fun he => hj (he ▸ List.mem_cons_self j0 t)
        have hjt : j ∉ t := fun hm => hj (List.mem_cons_of_mem j0 hm)
        rw [ihres.2.1 j hjt]
        unfold storeSet
        rw [if_neg hj0]
      · intro j hj
        rcases List.mem_cons.mp hj with he | hm
        · subst he
          by_cases hjt : j ∈ t
          · rw [ihres.2.2 j hjt]
            simp [appliedSlot, hw0]
          · rw [ihres.2.1 j hjt]
            unfold storeSet
            rw [if_pos rfl]
            simp [appliedSlot, hw0, hu]
        · rw [ihres.2.2 j hm]
          obtain ⟨wj, hwj, _⟩ := hokt j hm
          simp [appliedSlot, hwj]
    · have hgood : 2 ≤ w0.length ∧ w0.length ≤ 8 ∧ is_allowed_word w0 = true := by
        rcases hcase with h | h
        · exact absurd h hu
        · exact h
      rw [if_neg hu, if_neg (by omega), if_neg (by simp [hgood.2.2])]
      have ihres := ih k l2 (storeSet s j0 (some w0)) hokt hfail
      refine ⟨ihres.1, ?_, ?_⟩
      · intro j hj
        have hj0 : ¬j = j0 := fun he => hj (he ▸ List.mem_cons_self j0 t)
        have hjt : j ∉ t := fun hm => hj (List.mem_cons_of_mem j0 hm)
        rw [ihres.2.1 j hjt]
        unfold storeSet
        rw [if_neg hj0]
      · intro j hj
        rcases List.mem_cons.mp hj with he | hm
        · subst he
          by_cases hjt : j ∈ t
          · rw [ihres.2.2 j hjt]
            simp [appliedSlot, hw0]
          · rw [ihres.2.1 j hjt]
            unfold storeSet
            rw [if_pos rfl]
            simp [appliedSlot, hw0, hu]
        · rw [ihres.2.2 j hm]
          obtain ⟨wj, hwj, _⟩ := hokt j hm
          simp [appliedSlot, hwj]

/-- Counterexample to C1 as stated: a full bulk list whose line 2 has a
one-character word is rejected (the handler replies with the bulk-failure
text), yet slot 1, valid and processed first, has already been written:
the update is not atomic. -/
theorem bulk_update_not_atomic_counterexample :
    (handleBulkUpdate (ofStr "【問題一覧】") none (ofStr "未設定") (fun _ => none)
        (ofStr "【問題一覧】\n1. 音楽\n2. x\n3. 音楽\n4. 音楽\n5. 音楽\n6. 音楽\n7. 音楽\n8. 音楽\n9. 音楽\n10. 音楽")).map
        Prod.fst = some false ∧
    ((handleBulkUpdate (ofStr "【問題一覧】") none (ofStr "未設定") (fun _ => none)
        (ofStr "【問題一覧】\n1. 音楽\n2. x\n3. 音楽\n4. 音楽\n5. 音楽\n6. 音楽\n7. 音楽\n8. 音楽\n9. 音楽\n10. 音楽")).map
        (fun r => r.2 1)) = some (some (ofStr "音楽")) ∧
    (fun _ => (none : Option Str)) 1 = none := by
  refine ⟨?_, ?_, rfl⟩ <;> rfl

/-- C1 (amended): when a bulk-list line fails validation the batch is
rejected (the handler reports failure and replies with the bulk-failure
text), and no slot at or after the first failing slot is mutated; but the
slots before the first failing slot have already been applied (written,
or deleted when their word is the unset label), so the rejection is not
atomic.  Slot-number failures at slot 1 (including every malformed list
the parser returns as the empty entry dict) therefore leave the store
untouched. -/
theorem bulk_update_rejects_with_partial_writes (unset : Str)
    (entries : Nat → Option Str) (s : QStore) (k : Nat)
    (hk1 : 1 ≤ k) (hk10 : k ≤ 10)
    (hok : ∀ j, 1 ≤ j → j < k → bulkLineOk unset entries j)
    (hfail : bulkLineFails unset entries k) :
    (apply_bulk_quiz_update unset entries s).1 = false ∧
    (∀ j, k ≤ j → (apply_bulk_quiz_update unset entries s).2 j = s j) ∧
    (∀ j, 1 ≤ j → j < k → (apply_bulk_quiz_update unset entries s).2 j =
      appliedSlot unset (entries j) (s j)) := by
  have hsplit : List.range' 1 10 =
      List.range' 1 (k - 1) ++ k :: List.range' (k + 1) (10 - k) := by
    interval_cases k <;> rfl
  have hok' : ∀ j ∈ List.range' 1 (k - 1), bulkLineOk unset entries j := by
    intro j hj
    rw [List.mem_range'_1] at hj
    exact hok j hj.1 (by omega)
  unfold apply_bulk_quiz_update
  rw [hsplit]
  have hres := bulkGo_fail unset entries (List.range' 1 (k - 1)) k
    (List.range' (k + 1) (10 - k)) s hok' hfail
  refine ⟨hres.1, ?_, ?_⟩
  · intro j hj
    apply hres.2.1
    intro hm
    rw [List.mem_range'_1] at hm
    omega
  · intro j h1 h2
    apply hres.2.2
    rw [List.mem_range'_1]
    omega

/-- Witness for the amended C1: entries valid at slot 1 and too short at
slot 2 are rejected, slot 5 keeps its prior value, and slot 1 has been
written. -/
theorem bulk_update_rejects_with_partial_writes_witness :
    (apply_bulk_quiz_update (ofStr "未設定")
        (entryLookup [(1, ofStr "音楽"), (2, ofStr "x")]) (fun _ => none)).1 = false ∧
    (apply_bulk_quiz_update (ofStr "未設定")
        (entryLookup [(1, ofStr "音楽"), (2, ofStr "x")]) (fun _ => none)).2 5 =
      (fun _ => (none : Option Str)) 5 ∧
    (apply_bulk_quiz_update (ofStr "未設定")
        (entryLookup [(1, ofStr "音楽"), (2, ofStr "x")]) (fun _ => none)).2 1 =
      appliedSlot (ofStr "未設定")
        (entryLookup [(1, ofStr "音楽"), (2, ofStr "x")] 1) ((fun _ => none) 1) := by
  have h := bulk_update_rejects_with_partial_writes (ofStr "未設定")
    (entryLookup [(1, ofStr "音楽"), (2, ofStr "x")]) (fun _ => none) 2
    (by decide) (by decide)
    (by
      intro j h1 h2
      have hj : j = 1 := by omega
      subst hj
      exact ⟨ofStr "音楽", rfl, Or.inr (by decide)⟩)
    (Or.inr ⟨ofStr "x", rfl, by decide, Or.inl (by decide)⟩)
  exact ⟨h.1, h.2.1 5 (by decide), h.2.2 1 (by decide) (by decide)⟩
